import Mathlib

/-!
Verification of the QueryBuilder module (src/querybuilder.py): a shallow
embedding of the renderer and of its three post-processing passes, with
theorems settling the specification claims.
-/

set_option maxRecDepth 8000

/-- Characters removed by Python str.strip() with no argument. -/
def isPySpace (c : Char) : Bool :=
  c = ' ' || c = '\t' || c = '\n' || c = '\r' || c = '\x0b' || c = '\x0c'

/-- Python str.strip(): drop leading and trailing whitespace. -/
def pyStrip (cs : List Char) : List Char :=
  ((cs.dropWhile isPySpace).reverse.dropWhile isPySpace).reverse

/-- Maximal star-free run at the front of a list, with the remainder.
This is the interior scan of the block-comment regex of render: the lazy
quantifier admits only characters that are not a star, so it can never
grow past the first star of the remaining text. -/
def spanNotStar : List Char → List Char × List Char
  | [] => ([], [])
  | c :: rest =>
    if c = '*' then ([], c :: rest)
    else
      let p := spanNotStar rest
      (c :: p.1, p.2)

/-- Attempt to close a block comment: given the text following an
opening slash-star, return the text after the closing star-slash when
the scan succeeds, i.e. when the first star of the remainder is
followed immediately by a slash. -/
def closeBlock (rest : List Char) : Option (List Char) :=
  if (spanNotStar rest).2.take 2 = ['*', '/'] then
    Option.some ((spanNotStar rest).2.drop 2)
  else Option.none

theorem spanNotStar_snd_length_le (cs : List Char) :
    (spanNotStar cs).2.length ≤ cs.length := by
  induction cs with
  | nil => simp [spanNotStar]
  | cons c rest ih =>
    simp only [spanNotStar]
    split
    · simp
    · simpa using Nat.le_succ_of_le ih

theorem closeBlock_length_le (rest rest2 : List Char)
    (h : closeBlock rest = Option.some rest2) : rest2.length + 2 ≤ rest.length := by
  have hle := spanNotStar_snd_length_le rest
  unfold closeBlock at h
  split at h
  · rename_i heq
    cases h
    have h2 : 2 ≤ (spanNotStar rest).2.length := by
      by_contra hlt
      push_neg at hlt
      interval_cases hl : (spanNotStar rest).2.length <;>
        simp_all [List.take_of_length_le]
    simp only [List.length_drop]
    omega
  · cases h

/-- First regex pass of render (src/querybuilder.py line 97): re.sub of
pattern slash-star, lazily repeated non-star characters, star-slash,
replaced by the empty string, scanning left to right for non-overlapping
matches.  When the first star after an opener is not followed by a
slash there is no match at that position and the scan resumes one
character further on. -/
def stripBlockComments : List Char → List Char
  | '/' :: '*' :: rest =>
    match h : closeBlock rest with
    | Option.some rest2 => stripBlockComments rest2
    | Option.none => '/' :: stripBlockComments ('*' :: rest)
  | c :: rest => c :: stripBlockComments rest
  | [] => []
termination_by cs => cs.length
decreasing_by
  · have := closeBlock_length_le rest rest2 h
    simp only [List.length_cons]
    omega
  · simp only [List.length_cons]
    omega
  · simp only [List.length_cons]
    omega

/-- Locate the first newline of a list: the parts strictly before and
strictly after it, when one exists. -/
def breakAtNl : List Char → Option (List Char × List Char)
  | [] => Option.none
  | c :: rest =>
    if c = '\n' then Option.some ([], rest)
    else
      match breakAtNl rest with
      | Option.none => Option.none
      | Option.some p => Option.some (c :: p.1, p.2)

theorem breakAtNl_length_lt (cs : List Char) (p : List Char × List Char)
    (h : breakAtNl cs = Option.some p) : p.2.length < cs.length := by
  induction cs generalizing p with
  | nil => cases h
  | cons c rest ih =>
    unfold breakAtNl at h
    split at h
    · cases h
      simp
    · split at h
      · cases h
      · rename_i q hq
        cases h
        have := ih q hq
        simp only [List.length_cons]
        omega

/-- Second regex pass of render (line 99): re.sub of pattern
double-dash-or-hash, lazily repeated non-newline characters, newline,
replaced by the empty string.  A marker with no newline anywhere after
it never completes a match, so it is kept. -/
def stripLineComments : List Char → List Char
  | '-' :: '-' :: rest =>
    match h : breakAtNl rest with
    | Option.some p => stripLineComments p.2
    | Option.none => '-' :: stripLineComments ('-' :: rest)
  | '#' :: rest =>
    match h : breakAtNl rest with
    | Option.some p => stripLineComments p.2
    | Option.none => '#' :: stripLineComments rest
  | c :: rest => c :: stripLineComments rest
  | [] => []
termination_by cs => cs.length
decreasing_by
  · have := breakAtNl_length_lt rest p h
    simp only [List.length_cons]
    omega
  · simp only [List.length_cons]
    omega
  · have := breakAtNl_length_lt rest p h
    simp only [List.length_cons]
    omega
  · simp only [List.length_cons]
    omega
  · simp only [List.length_cons]
    omega

/-- Post-processing of the rendered text (lines 96-99): block comments
are stripped first, then line comments. -/
def postProcess (cs : List Char) : List Char :=
  stripLineComments (stripBlockComments cs)

/-- Python str.split on the semicolon (line 101): every segment between
consecutive semicolons, in order, including empty segments; the split
of the empty text is one empty segment. -/
def splitSemis : List Char → List (List Char)
  | [] => [[]]
  | c :: rest =>
    if c = ';' then [] :: splitSemis rest
    else
      match splitSemis rest with
      | [] => [[c]]
      | s :: ss => (c :: s) :: ss

/-- The unit format of line 103 applied to a prefix string, a 1-based
ordinal and a trimmed statement. -/
def formatUnit (p : String) (n : Nat) (t : List Char) : String :=
  "-- " ++ p ++ " (#" ++ toString n ++ ") --\n" ++ String.mk t ++ "\n"

/-- The enumerate loop of render (lines 104-109); `i` is the 0-based
index of the head segment within the full split. -/
def buildUnits (p : String) (i : Nat) : List (List Char) → List String
  | [] => []
  | s :: ss =>
    if pyStrip s = [] then buildUnits p (i + 1) ss
    else formatUnit p (i + 1) (pyStrip s) :: buildUnits p (i + 1) ss

/-- Renderer state established by QueryBuilder.__init__ (lines 63-66).
The compiled jinja2 template object is opaque; it is modelled by the
text it was compiled from. -/
structure QueryBuilder where
  original : String
  prefixLabel : String
  template : String
deriving DecidableEq

/-- QueryBuilder.__init__: the stored label is the argument unless it is
falsy (None or the empty string), in which case it is the class name. -/
def QueryBuilder.init (stmts : String) (label : Option String) : QueryBuilder :=
  { original := stmts
  , prefixLabel :=
      match label with
      | Option.none => "QueryBuilder"
      | Option.some p => if p = "" then "QueryBuilder" else p
  , template := stmts }

/-- The dynamically typed `params` argument of render: absent (None), a
dict with string keys and values, or a value of any other type carried
with the text of its Python type. -/
inductive ParamsArg where
  | noArg : ParamsArg
  | mapArg : List (String × String) → ParamsArg
  | otherArg : String → ParamsArg
deriving DecidableEq

/-- Leftmost non-overlapping replacement: every occurrence of the
pattern `p0 :: ptl` is replaced by `repl`. -/
def replaceAll (p0 : Char) (ptl repl : List Char) : List Char → List Char
  | [] => []
  | c :: rest =>
    if c == p0 && ptl.isPrefixOf rest then
      repl ++ replaceAll p0 ptl repl (rest.drop ptl.length)
    else c :: replaceAll p0 ptl repl rest
termination_by cs => cs.length
decreasing_by
  · simp only [List.length_cons, List.length_drop]
    omega
  · simp only [List.length_cons]
    omega

/-- Modelled from the spec: the template engine (jinja2) is an external
capability, not code of this repository.  Per the spec, render
"substitutes every placeholder with its bound value": each double-brace
placeholder holding a bound key is replaced by the bound value, in
binding order.  Control directives and blank rendering of absent keys
are outside the model. -/
def renderTemplate (bindings : List (String × String)) (text : String) : String :=
  bindings.foldl
    (fun acc kv =>
      String.mk
        (replaceAll '\x7b' ('\x7b' :: (kv.1.data ++ ['\x7d', '\x7d'])) kv.2.data acc.data))
    text

/-- Segments of one render call: render the template, post-process,
split on the literal semicolon. -/
def segmentsOf (qb : QueryBuilder) (m : List (String × String)) : List (List Char) :=
  splitSemis (postProcess (renderTemplate m qb.template).data)

/-- The ordered unit list a successful render call returns. -/
def renderUnitsOf (qb : QueryBuilder) (m : List (String × String)) : List String :=
  buildUnits qb.prefixLabel 0 (segmentsOf qb m)

/-- QueryBuilder.render (lines 68-111): a non-dict argument raises
TypeError before any rendering; None is replaced by the empty dict. -/
def renderE (qb : QueryBuilder) (a : ParamsArg) : Except String (List String) :=
  match a with
  | ParamsArg.noArg => Except.ok (renderUnitsOf qb [])
  | ParamsArg.mapArg m => Except.ok (renderUnitsOf qb m)
  | ParamsArg.otherArg t =>
      Except.error ("Provided `params` is not dict (type=" ++ t ++ ")")

/-- render paired with the renderer state after the call; the body of
render assigns no attribute of self, so the post-call state is the
input state. -/
def renderFull (qb : QueryBuilder) (a : ParamsArg) :
    QueryBuilder × Except String (List String) :=
  (qb, renderE qb a)

/-- Specification of one output unit, following the spec's words: a unit
is produced for the raw segment at 0-based position `j` of the full
split exactly when that segment is non-blank after trimming, and the
ordinal printed in its header is `j + 1`, the 1-based position among all
raw segments; `i` shifts the base position of `ss` within the split. -/
def specUnitAt (p : String) (i : Nat) (ss : List (List Char)) (j : Nat) : Option String :=
  match ss[j]? with
  | Option.some s =>
    if pyStrip s = [] then Option.none
    else Option.some (formatUnit p (i + j + 1) (pyStrip s))
  | Option.none => Option.none

theorem specUnitAt_cons_succ (p : String) (i : Nat) (s : List Char)
    (ss : List (List Char)) (j : Nat) :
    specUnitAt p i (s :: ss) (j + 1) = specUnitAt p (i + 1) ss j := by
  simp only [specUnitAt, List.getElem?_cons_succ]
  have h : i + (j + 1) + 1 = i + 1 + j + 1 := by omega
  rw [h]

theorem buildUnits_eq_spec (p : String) (ss : List (List Char)) (i : Nat) :
    buildUnits p i ss = (List.range ss.length).filterMap (specUnitAt p i ss) := by
  induction ss generalizing i with
  | nil => simp [buildUnits]
  | cons s ss ih =>
    have hmap : (List.range ss.length).filterMap (fun j => specUnitAt p i (s :: ss) (j + 1)) =
        (List.range ss.length).filterMap (specUnitAt p (i + 1) ss) := by
      rw [show (fun j => specUnitAt p i (s :: ss) (j + 1)) = specUnitAt p (i + 1) ss from
        funext fun j => specUnitAt_cons_succ p i s ss j]
    rw [List.length_cons, List.range_succ_eq_map, List.filterMap_cons, List.filterMap_map]
    have hcomp : (specUnitAt p i (s :: ss)) ∘ Nat.succ = fun j => specUnitAt p i (s :: ss) (j + 1) :=
      rfl
    rw [hcomp, hmap, ← ih]
    by_cases hb : pyStrip s = [] <;>
      simp [specUnitAt, buildUnits, hb]

theorem buildUnits_eq_nil (p : String) (ss : List (List Char)) (i : Nat)
    (h : ∀ s ∈ ss, pyStrip s = []) : buildUnits p i ss = [] := by
  induction ss generalizing i with
  | nil => rfl
  | cons s ss ih =>
    have hs : pyStrip s = [] := h s (by simp)
    simp only [buildUnits, hs, if_pos rfl]
    exact ih (i + 1) (fun t ht => h t (List.mem_cons_of_mem s ht))

theorem buildUnits_mem (p : String) (ss : List (List Char)) (i : Nat) (u : String)
    (hu : u ∈ buildUnits p i ss) :
    ∃ j s, ss[j]? = Option.some s ∧ pyStrip s ≠ [] ∧
      u = formatUnit p (i + j + 1) (pyStrip s) := by
  induction ss generalizing i with
  | nil => simp [buildUnits] at hu
  | cons s ss ih =>
    by_cases hb : pyStrip s = []
    · simp only [buildUnits, hb, if_pos rfl] at hu
      obtain ⟨j, t, h1, h2, h3⟩ := ih (i + 1) hu
      refine ⟨j + 1, t, by simpa using h1, h2, ?_⟩
      rw [h3]
      have : i + 1 + j + 1 = i + (j + 1) + 1 := by omega
      rw [this]
    · simp only [buildUnits, if_neg hb, List.mem_cons] at hu
      rcases hu with hhead | htail
      · exact ⟨0, s, by simp, hb, by simp [hhead]⟩
      · obtain ⟨j, t, h1, h2, h3⟩ := ih (i + 1) htail
        refine ⟨j + 1, t, by simpa using h1, h2, ?_⟩
        rw [h3]
        have : i + 1 + j + 1 = i + (j + 1) + 1 := by omega
        rw [this]


theorem stripBlockComments_open (rest : List Char) :
    stripBlockComments ('/' :: '*' :: rest) =
      match closeBlock rest with
      | Option.some rest2 => stripBlockComments rest2
      | Option.none => '/' :: stripBlockComments ('*' :: rest) := by
  rw [stripBlockComments.eq_def]
  split
  · rename_i rest2 h
    injection h with h1 h2
    injection h2 with h2 h3
    subst h3
    split
    · rename_i r2 hc
      rw [hc]
    · rename_i hc
      rw [hc]
  · rename_i hno heq
    injection heq with h1 h2
    exact (hno rest h1.symm h2.symm).elim
  · rename_i heq
    cases heq

theorem spanNotStar_append (w zs : List Char) (hw : '*' ∉ w) :
    spanNotStar (w ++ '*' :: zs) = (w, '*' :: zs) := by
  induction w with
  | nil => simp [spanNotStar]
  | cons c w ih =>
    simp only [List.mem_cons, not_or] at hw
    have hc : ¬c = '*' := fun h => hw.1 h.symm
    simp [spanNotStar, hc, ih hw.2]

theorem closeBlock_append (w rest : List Char) (hw : '*' ∉ w) :
    closeBlock (w ++ '*' :: '/' :: rest) = Option.some rest := by
  unfold closeBlock
  rw [spanNotStar_append w ('/' :: rest) hw]
  simp

theorem breakAtNl_none (cs : List Char) (h : '\n' ∉ cs) :
    breakAtNl cs = Option.none := by
  induction cs with
  | nil => rfl
  | cons c rest ih =>
    simp only [List.mem_cons, not_or] at h
    have hc : ¬c = '\n' := fun hcc => h.1 hcc.symm
    simp [breakAtNl, hc, ih h.2]

theorem breakAtNl_append (w zs : List Char) (hw : '\n' ∉ w) :
    breakAtNl (w ++ '\n' :: zs) = Option.some (w, zs) := by
  induction w with
  | nil => simp [breakAtNl]
  | cons c w ih =>
    simp only [List.mem_cons, not_or] at hw
    have hc : ¬c = '\n' := fun h => hw.1 h.symm
    simp [breakAtNl, hc, ih hw.2]

theorem stripLineComments_dashdash (rest : List Char) :
    stripLineComments ('-' :: '-' :: rest) =
      match breakAtNl rest with
      | Option.some p => stripLineComments p.2
      | Option.none => '-' :: stripLineComments ('-' :: rest) := by
  rw [stripLineComments.eq_def]
  split
  · rename_i r h
    injection h with h1 h2
    injection h2 with h2 h3
    subst h3
    split
    · rename_i p hc
      rw [hc]
    · rename_i hc
      rw [hc]
  · rename_i heq
    injection heq with h1 h2
    exact absurd h1 (by decide)
  · rename_i hno hhash heq
    injection heq with h1 h2
    exact (hno rest h1.symm h2.symm).elim
  · rename_i heq
    cases heq

theorem stripLineComments_hash (rest : List Char) :
    stripLineComments ('#' :: rest) =
      match breakAtNl rest with
      | Option.some p => stripLineComments p.2
      | Option.none => '#' :: stripLineComments rest := by
  rw [stripLineComments.eq_def]
  split
  · rename_i r heq
    injection heq with h1 h2
    exact absurd h1 (by decide)
  · rename_i r heq
    injection heq with h1 h2
    subst h2
    split
    · rename_i p hc
      rw [hc]
    · rename_i hc
      rw [hc]
  · rename_i hno hhash heq
    injection heq with h1 h2
    exact (hhash h1.symm).elim
  · rename_i heq
    cases heq

theorem stripLineComments_cons (c : Char) (rest : List Char)
    (hdd : ∀ r, c :: rest ≠ '-' :: '-' :: r) (hh : c ≠ '#') :
    stripLineComments (c :: rest) = c :: stripLineComments rest := by
  rw [stripLineComments.eq_def]
  split
  · rename_i r heq
    exact absurd heq (hdd r)
  · rename_i r heq
    injection heq with h1 h2
    exact absurd h1 hh
  · rename_i heq
    cases heq
    rfl
  · rename_i heq
    cases heq

theorem stripLineComments_nil : stripLineComments [] = [] := by
  simp [stripLineComments]

theorem stripLineComments_eq_self (n : Nat) :
    ∀ cs : List Char, cs.length ≤ n → '\n' ∉ cs → stripLineComments cs = cs := by
  induction n with
  | zero =>
    intro cs hlen _
    have : cs = [] := List.eq_nil_of_length_eq_zero (Nat.le_zero.mp hlen)
    subst this
    exact stripLineComments_nil
  | succ n ih =>
    intro cs hlen hmem
    rcases cs with _ | ⟨c, rest⟩
    · exact stripLineComments_nil
    · simp only [List.mem_cons, not_or] at hmem
      by_cases hh : c = '#'
      · subst hh
        rw [stripLineComments_hash, breakAtNl_none rest hmem.2]
        have hr := ih rest (by simpa using hlen) hmem.2
        simp [hr]
      · rcases rest with _ | ⟨c2, rest2⟩
        · rw [stripLineComments_cons c [] (by intro r hr; cases hr) hh]
          rw [stripLineComments_nil]
        · by_cases hdd : c = '-' ∧ c2 = '-'
          · obtain ⟨h1, h2⟩ := hdd
            subst h1
            subst h2
            have hr2 : '\n' ∉ rest2 :=
              fun hx => hmem.2 (List.mem_cons_of_mem '-' hx)
            rw [stripLineComments_dashdash, breakAtNl_none rest2 hr2]
            have hr := ih ('-' :: rest2) (by simpa using hlen) hmem.2
            simp [hr]
          · have hne : ∀ r, c :: c2 :: rest2 ≠ '-' :: '-' :: r := by
              intro r hr
              injection hr with ha hb
              injection hb with hb hc
              exact hdd ⟨ha, hb⟩
            rw [stripLineComments_cons c (c2 :: rest2) hne hh]
            rw [ih (c2 :: rest2) (by simpa using hlen) hmem.2]

/-- Claim C1: rendering the Scenario A template with bindings table=test
and date=2016-11-23 returns exactly one unit: the header line with the
default prefix and ordinal 1, then the trimmed statement, then one
trailing newline. -/
theorem render_scenario_a :
    renderE (QueryBuilder.init "select * from \x7b\x7btable\x7d\x7d where date = \"\x7b\x7bdate\x7d\x7d\"" Option.none)
      (ParamsArg.mapArg [("table", "test"), ("date", "2016-11-23")]) =
    Except.ok ["-- QueryBuilder (#1) --\nselect * from test where date = \"2016-11-23\"\n"] := by
  simp +decide [renderE, renderUnitsOf, segmentsOf, renderTemplate, replaceAll, postProcess,
    stripBlockComments, closeBlock, spanNotStar, stripLineComments, breakAtNl,
    splitSemis, buildUnits, pyStrip, isPySpace, formatUnit, QueryBuilder.init]

/-- Claim C2: a successful render returns exactly the units obtained by
walking the raw segments of the semicolon split in order: the segment at
0-based position j yields a unit precisely when it is non-blank after
trimming, the ordinal printed in its header is j + 1 — its 1-based
position among all raw segments, blanks included — and the returned units
keep the left-to-right order of their segments. -/
theorem render_ordinal_order (qb : QueryBuilder) (m : List (String × String)) :
    renderE qb (ParamsArg.mapArg m) =
      Except.ok ((List.range (segmentsOf qb m).length).filterMap
        (specUnitAt qb.prefixLabel 0 (segmentsOf qb m))) := by
  show Except.ok (renderUnitsOf qb m) = _
  rw [renderUnitsOf, buildUnits_eq_spec]

/-- Claim C3 counterexample: a block comment whose interior contains a
lone star not followed by a slash is NOT removed: the whole text is
returned unchanged instead of being deleted. -/
theorem block_comment_lone_star_kept :
    stripBlockComments ("/* a * b */".data) = "/* a * b */".data ∧
    "/* a * b */".data ≠ "".data := by
  constructor
  · simp +decide [stripBlockComments, closeBlock, spanNotStar]
  · decide

/-- Claim C3 amended: block-comment stripping removes every
non-overlapping occurrence of slash-star, interior, star-slash whose
interior contains no star at all, across newlines; an occurrence whose
interior holds a star that is not immediately followed by a slash is not
matched (see the counterexample). -/
theorem block_comment_removed (w rest : List Char) (hw : '*' ∉ w) :
    stripBlockComments ('/' :: '*' :: (w ++ '*' :: '/' :: rest)) =
      stripBlockComments rest := by
  rw [stripBlockComments_open, closeBlock_append w rest hw]

/-- Witness for the amended Claim C3, with a multi-line interior. -/
theorem block_comment_removed_witness :
    ('*' ∉ ['x', '\n', 'y']) ∧
    stripBlockComments ('/' :: '*' :: (['x', '\n', 'y'] ++ '*' :: '/' :: ['z'])) =
      stripBlockComments ['z'] :=
  ⟨by decide, block_comment_removed ['x', '\n', 'y'] ['z'] (by decide)⟩

/-- Claim C4 counterexample: a double-dash comment on the final line of
the text, with no trailing newline, is kept verbatim rather than removed
through end of text. -/
theorem line_comment_eof_kept :
    stripLineComments ("select 1 -- hi".data) = "select 1 -- hi".data ∧
    "select 1 -- hi".data ≠ "select 1 ".data := by
  constructor
  · simp +decide [stripLineComments, breakAtNl]
  · decide

/-- Claim C4 amended: line-comment stripping removes every substring from
a double-dash or hash marker through and including the next newline; a
marker not followed by any newline — in particular a comment on the final
line of a text without a trailing newline — is left in place, and text
without newlines passes through unchanged. -/
theorem line_comment_removed (w rest cs : List Char) (hw : '\n' ∉ w)
    (hcs : '\n' ∉ cs) :
    stripLineComments ('-' :: '-' :: (w ++ '\n' :: rest)) = stripLineComments rest ∧
    stripLineComments ('#' :: (w ++ '\n' :: rest)) = stripLineComments rest ∧
    stripLineComments cs = cs := by
  refine ⟨?_, ?_, stripLineComments_eq_self cs.length cs le_rfl hcs⟩
  · rw [stripLineComments_dashdash, breakAtNl_append w rest hw]
  · rw [stripLineComments_hash, breakAtNl_append w rest hw]

/-- Witness for the amended Claim C4. -/
theorem line_comment_removed_witness :
    ('\n' ∉ [' ', 'c']) ∧ ('\n' ∉ ['y']) ∧
    (stripLineComments ('-' :: '-' :: ([' ', 'c'] ++ '\n' :: ['x'])) =
        stripLineComments ['x'] ∧
      stripLineComments ('#' :: ([' ', 'c'] ++ '\n' :: ['x'])) =
        stripLineComments ['x'] ∧
      stripLineComments ['y'] = ['y']) :=
  ⟨by decide, by decide,
    line_comment_removed [' ', 'c'] ['x'] ['y'] (by decide) (by decide)⟩

/-- Claim C5: render fails exactly when the params argument is neither
absent nor a dict, and then the TypeError message names the received
type; the error is the entire result, so nothing is rendered. -/
theorem render_params_validation (qb : QueryBuilder) (a : ParamsArg) (t : String) :
    ((∃ msg, renderE qb a = Except.error msg) ↔ ∃ u, a = ParamsArg.otherArg u) ∧
    renderE qb (ParamsArg.otherArg t) =
      Except.error ("Provided `params` is not dict (type=" ++ t ++ ")") := by
  constructor
  · constructor
    · intro hmsg
      obtain ⟨msg, hmsg⟩ := hmsg
      cases a with
      | noArg => exact absurd hmsg (by simp [renderE])
      | mapArg m => exact absurd hmsg (by simp [renderE])
      | otherArg u => exact ⟨u, rfl⟩
    · rintro ⟨u, rfl⟩
      exact ⟨_, rfl⟩
  · rfl

/-- Witness for Claim C5 at a list-typed argument. -/
theorem render_params_validation_witness :
    ((∃ msg, renderE (QueryBuilder.init "x" Option.none) (ParamsArg.otherArg "list") =
        Except.error msg) ↔
      ∃ u, ParamsArg.otherArg "list" = ParamsArg.otherArg u) ∧
    renderE (QueryBuilder.init "x" Option.none) (ParamsArg.otherArg "list") =
      Except.error ("Provided `params` is not dict (type=" ++ "list" ++ ")") :=
  render_params_validation (QueryBuilder.init "x" Option.none)
    (ParamsArg.otherArg "list") "list"

/-- Claim C6: calling render with no argument returns the same result as
calling it with an explicit empty dict, for every renderer. -/
theorem render_no_arg_eq_empty_map (qb : QueryBuilder) :
    renderE qb ParamsArg.noArg = renderE qb (ParamsArg.mapArg []) := rfl

/-- Claim C7: render is deterministic and calls are independent: after an
earlier call, repeating the call with the same argument returns the same
output, and a call with any argument returns what it would return on the
renderer before the earlier call. -/
theorem render_deterministic_independent (qb : QueryBuilder) (a b : ParamsArg) :
    (renderFull (renderFull qb a).1 a).2 = (renderFull qb a).2 ∧
    (renderFull (renderFull qb a).1 b).2 = (renderFull qb b).2 :=
  ⟨rfl, rfl⟩

/-- Claim C8: no returned unit comes from a segment that is blank after
trimming — every unit is the formatting of some non-blank segment at its
own pre-filter position — and when every segment is blank render returns
the empty sequence. -/
theorem render_skips_blank (qb : QueryBuilder) (m : List (String × String)) :
    (∀ u ∈ renderUnitsOf qb m, ∃ j s, (segmentsOf qb m)[j]? = Option.some s ∧
        pyStrip s ≠ [] ∧ u = formatUnit qb.prefixLabel (j + 1) (pyStrip s)) ∧
    ((∀ s ∈ segmentsOf qb m, pyStrip s = []) → renderUnitsOf qb m = []) := by
  constructor
  · intro u hu
    obtain ⟨j, s, h1, h2, h3⟩ :=
      buildUnits_mem qb.prefixLabel (segmentsOf qb m) 0 u hu
    exact ⟨j, s, h1, h2, by simpa using h3⟩
  · intro h
    exact buildUnits_eq_nil qb.prefixLabel (segmentsOf qb m) 0 h

/-- Witness for Claim C8 at a template with a blank middle segment. -/
theorem render_skips_blank_witness :
    (∀ u ∈ renderUnitsOf (QueryBuilder.init "a; ;b" Option.none) [],
        ∃ j s, (segmentsOf (QueryBuilder.init "a; ;b" Option.none) [])[j]? =
            Option.some s ∧
          pyStrip s ≠ [] ∧
          u = formatUnit (QueryBuilder.init "a; ;b" Option.none).prefixLabel
            (j + 1) (pyStrip s)) ∧
    ((∀ s ∈ segmentsOf (QueryBuilder.init "a; ;b" Option.none) [],
        pyStrip s = []) →
      renderUnitsOf (QueryBuilder.init "a; ;b" Option.none) [] = []) :=
  render_skips_blank (QueryBuilder.init "a; ;b" Option.none) []

/-- Claim C9: render mutates no renderer state: after any call the
renderer equals what construction established — stored original template
text, prefix label and compiled template are all unchanged — and the
original text is preserved verbatim, comment stripping touching only the
render output. -/
theorem render_preserves_renderer (stmts : String) (label : Option String)
    (a : ParamsArg) :
    (renderFull (QueryBuilder.init stmts label) a).1 = QueryBuilder.init stmts label ∧
    (renderFull (QueryBuilder.init stmts label) a).1.original = stmts ∧
    (renderFull (QueryBuilder.init stmts label) a).1.prefixLabel =
      (QueryBuilder.init stmts label).prefixLabel ∧
    (renderFull (QueryBuilder.init stmts label) a).1.template =
      (QueryBuilder.init stmts label).template :=
  ⟨rfl, rfl, rfl, rfl⟩

/-- Claim C10: an empty-string prefix argument, exactly like an omitted
one, falls back to the class-name label QueryBuilder, because the default
applies to every falsy value; a non-empty prefix is stored as given. -/
theorem init_empty_label_defaults (stmts : String) (p : String) (hp : p ≠ "") :
    (QueryBuilder.init stmts (Option.some "")).prefixLabel = "QueryBuilder" ∧
    (QueryBuilder.init stmts Option.none).prefixLabel = "QueryBuilder" ∧
    (QueryBuilder.init stmts (Option.some p)).prefixLabel = p := by
  refine ⟨rfl, rfl, ?_⟩
  simp [QueryBuilder.init, hp]

/-- Witness for Claim C10. -/
theorem init_empty_label_defaults_witness :
    ("q" ≠ "") ∧
    ((QueryBuilder.init "t" (Option.some "")).prefixLabel = "QueryBuilder" ∧
      (QueryBuilder.init "t" Option.none).prefixLabel = "QueryBuilder" ∧
      (QueryBuilder.init "t" (Option.some "q")).prefixLabel = "q") :=
  ⟨by decide, init_empty_label_defaults "t" "q" (by decide)⟩
